import Mathlib

/-!
Verification of the bitfinex funding bot (src/main.py).

The reconciliation cycle (execute_funding_task), the market observers
(get_highest_rate, get_funding_balance, has_frr_offer) and the stats
aggregation (show_stats) are embedded as pure functions over a linear
ordered field α, which models the Python float values exactly on the
operations the code performs (addition, subtraction, comparison).
Claims about concrete numbers are settled at α = ℚ.  The strategy
selection (make_strategy) uses the real power function
(1 + rate * period) ** (365 / period), so it is embedded over ℝ.

Exchange I/O is modelled by snapshots: each REST query performed by the
task is one field of a TaskEnv record holding the value that query
returned, and the submissions/cancellations the task performs are
returned as a list of Action values in program order.  A Python runtime
crash (the TypeError raised when a None balance is compared with a
number, the ZeroDivisionError raised by 0 / 0) is modelled as Option
none.
-/

namespace BitfinexBot

/-- Offer type: a fixed rate limit order, or a floating rate
(follow the flash return rate) order. Models the string constants
FundingOffer.Type.LIMIT and FundingOffer.Type.FRR_DELTA of bfxapi. -/
inductive FType where
  | LIMIT
  | FRR_DELTA
deriving DecidableEq

/-- Live funding offer snapshot: (id, type, rate, period, amount). -/
structure FundingOffer (α : Type) where
  id : ℕ
  f_type : FType
  rate : α
  period : ℕ
  amount : α
deriving DecidableEq

/-- Target configuration (f_type, rate, period), src/main.py lines 32-36. -/
structure FundingStrategy (α : Type) where
  f_type : FType
  rate : α
  period : ℕ
deriving DecidableEq

/-- Wallet snapshot: type and currency strings plus the two balances. -/
structure Wallet (α : Type) where
  type : String
  currency : String
  balance_available : α
  balance : α
deriving DecidableEq

/-- One active funding credit: the fields of the bfxapi credit object
that show_stats reads. -/
structure Credit (α : Type) where
  amount : α
  rate : α
deriving DecidableEq

/-- An exchange-mutating call issued by the task: submit_cancel_funding_offer
or submit_funding_offer, with the arguments the code passes. -/
inductive Action (α : Type) where
  | cancel (id : ℕ)
  | submit (amount : α) (rate : α) (period : ℕ) (f_type : FType)
deriving DecidableEq

variable {α : Type} [LinearOrderedField α]

/-- FundingStrategy.is_used_by, src/main.py lines 38-43: all three fields
must match exactly (exact equality on the rate). -/
def FundingStrategy.is_used_by (s : FundingStrategy α) (o : FundingOffer α) : Prop :=
  s.f_type = o.f_type ∧ s.rate = o.rate ∧ s.period = o.period

instance (s : FundingStrategy α) (o : FundingOffer α) : Decidable (s.is_used_by o) := by
  unfold FundingStrategy.is_used_by
  infer_instance

/-- Lines 76-82 of execute_funding_task: walk the live offers, skip the
FRR_DELTA ones, cancel every remaining offer the strategy is not used by. -/
def cancel_mismatched_offers (s : FundingStrategy α) : List (FundingOffer α) → List (Action α)
  | [] => []
  | o :: rest =>
    if o.f_type = FType.FRR_DELTA then
      cancel_mismatched_offers s rest
    else if ¬ s.is_used_by o then
      Action.cancel o.id :: cancel_mismatched_offers s rest
    else
      cancel_mismatched_offers s rest

/-- Lines 89-95: fold over the offers keeping the first seen non-FRR offer
of strictly smallest amount. -/
def min_amount_non_frr (offers : List (FundingOffer α)) : Option (FundingOffer α) :=
  offers.foldl
    (fun acc o =>
      if o.f_type = FType.FRR_DELTA then acc
      else
        match acc with
        | none => some o
        | some m => if o.amount < m.amount then some o else acc)
    none

/-- Lines 86-99: when the re-read balance is strictly between 1 and 150,
cancel the smallest-amount non-FRR offer if one exists. -/
def dust_cancel_step (b : α) (offers : List (FundingOffer α)) : List (Action α) :=
  if 1 < b ∧ b < 150 then
    match min_amount_non_frr offers with
    | some m => [Action.cancel m.id]
    | none => []
  else []

/-- has_frr_offer, src/main.py lines 195-200. -/
def has_frr_offer (offers : List (FundingOffer α)) : Bool :=
  offers.any (fun o => o.f_type = FType.FRR_DELTA)

/-- Lines 102-115: if the balance is at least 150 and no FRR offer exists,
submit one FRR_DELTA offer of amount min(balance, 1000), rate 0, period 30
(1000 is MAX_OFFER_AMOUNT, src/main.py line 22). -/
def frr_offer_step (b : α) (offers : List (FundingOffer α)) : List (Action α) :=
  if 150 ≤ b ∧ ¬ has_frr_offer offers then
    [Action.submit (if 1000 < b then 1000 else b) 0 30 FType.FRR_DELTA]
  else []

/-- Lines 119-132: while the tracked balance is at least 150, submit an
offer at the strategy rate/period of amount MAX_OFFER_AMOUNT = 1000,
except that the amount becomes the whole remaining balance when one more
full-size offer would leave a remainder below 150; decrement the tracked
balance by the submitted amount after each submission. -/
def split_offer_loop [FloorRing α] (s : FundingStrategy α) (b : α) : List (Action α) :=
  if h : 150 ≤ b then
    if h2 : b - 1000 < 150 then
      Action.submit b s.rate s.period s.f_type :: split_offer_loop s (b - b)
    else
      Action.submit 1000 s.rate s.period s.f_type :: split_offer_loop s (b - 1000)
  else []
termination_by (⌈b⌉).toNat
decreasing_by
  · have hb : (150 : ℤ) ≤ ⌈b⌉ := by
      have := Int.ceil_le_ceil (α := α) h
      simpa using this
    have h0 : b - b = 0 := sub_self b
    rw [h0]
    simp only [Int.ceil_zero, Int.toNat_zero]
    omega
  · have hb : (1150 : ℤ) ≤ ⌈b⌉ := by
      have h3 : (1150 : α) ≤ b := by
        have := not_lt.mp h2
        linarith
      have := Int.ceil_le_ceil (α := α) h3
      simpa using this
    have hsub : ⌈b - 1000⌉ = ⌈b⌉ - 1000 := by
      norm_num
    rw [hsub]
    omega

/-- get_funding_balance, src/main.py lines 188-192: the balance_available
of the first wallet of type funding and currency USD, none when no such
wallet exists (the Python function falls off the loop and returns None). -/
def get_funding_balance : List (Wallet α) → Option α
  | [] => none
  | w :: ws =>
    if w.type = "funding" ∧ w.currency = "USD" then some w.balance_available
    else get_funding_balance ws

/-- The values returned by the successive exchange queries of one
execute_funding_task cycle, in program order: the strategy computed by
make_strategy, then each get_funding_offers / get_wallets snapshot. -/
structure TaskEnv (α : Type) where
  strategy : FundingStrategy α
  offers1 : List (FundingOffer α)
  wallets1 : List (Wallet α)
  offers2 : List (FundingOffer α)
  wallets2 : List (Wallet α)
  offers3 : List (FundingOffer α)
  wallets3 : List (Wallet α)

/-- execute_funding_task, src/main.py lines 71-132, as the list of actions
it issues.  A none balance read makes the whole cycle none: the Python
code would raise TypeError on the very next comparison of None with a
number. -/
def execute_funding_task [FloorRing α] (env : TaskEnv α) : Option (List (Action α)) :=
  match get_funding_balance env.wallets1 with
  | none => none
  | some b1 =>
    match get_funding_balance env.wallets2 with
    | none => none
    | some b2 =>
      match get_funding_balance env.wallets3 with
      | none => none
      | some b3 =>
        some (cancel_mismatched_offers env.strategy env.offers1 ++
          (dust_cancel_step b1 env.offers2 ++
            (frr_offer_step b2 env.offers3 ++
              split_offer_loop env.strategy b3)))

/-- One candle as returned by get_public_candles: the code destructures
it as [mts, open, close, high, low, volume] (src/main.py line 181).  The
field opn models the open value, open being a Lean keyword. -/
structure Candle (α : Type) where
  mts : ℕ
  opn : α
  close : α
  high : α
  low : α
  volume : α
deriving DecidableEq

/-- The accumulator update of the loop in get_highest_rate, src/main.py
lines 180-184: when the candle volume is positive and the running highest
is None or below the candle high, take the candle high. -/
def highest_rate_step (highest : Option α) (c : Candle α) : Option α :=
  if 0 < c.volume then
    match highest with
    | none => some c.high
    | some h => if h < c.high then some c.high else highest
  else highest

/-- get_highest_rate, src/main.py lines 176-185, applied to the candle
list the exchange returned: fold the update over the candles starting
from None. -/
def get_highest_rate (candles : List (Candle α)) : Option α :=
  candles.foldl highest_rate_step none

/-- show_stats, src/main.py lines 220-237: accumulate total_amount and
total_earn over the credits, substituting the FRR rate for a credit rate
of exactly zero, then report (total_amount, total_earn, average_rate,
final_earn) with average_rate = total_earn / total_amount and final_earn
= total_earn * (1 - BITFINEX_FEES), BITFINEX_FEES = 0.15 (line 20).  The
code divides by total_amount unguarded; with no credits both
accumulators are the integer 0 and Python raises ZeroDivisionError,
modelled here as none. -/
def show_stats (credits : List (Credit α)) (frr_rate : α) : Option (α × α × α × α) :=
  let totals := credits.foldl
    (fun (acc : α × α) credit =>
      let rate := if credit.rate = 0 then frr_rate else credit.rate
      (acc.1 + credit.amount, acc.2 + rate * credit.amount))
    (0, 0)
  if totals.1 = 0 then none
  else some (totals.1, totals.2, totals.2 / totals.1, totals.2 * (1 - 0.15))

/-! ## Strategy selection (make_strategy), over ℝ

The annualized rate uses the real power function, so this part of the
embedding lives in ℝ (modelling Python float arithmetic by exact real
arithmetic). -/

/-- MIN_RATE, src/main.py line 23. -/
noncomputable def MIN_RATE : ℝ := 0.0001

/-- MIN_RATE_INCR_PER_DAY, src/main.py line 24. -/
noncomputable def MIN_RATE_INCR_PER_DAY : ℝ := 0.00003

/-- POSSIBLE_PERIOD, src/main.py line 25, in its iteration order. -/
def POSSIBLE_PERIOD : List ℕ := [2, 3, 4, 5, 6, 7, 8, 10, 14, 15, 16, 20, 21, 22, 24, 30]

/-- get_annual_rate, src/main.py lines 28-29: (1 + rate * period) ** (365 / period) - 1,
with ** the real power function. -/
noncomputable def get_annual_rate (rate : ℝ) (period : ℕ) : ℝ :=
  (1 + rate * period) ^ ((365 : ℝ) / period) - 1

/-- Lines 140-142 of make_strategy: the observed 2-day highest rate, replaced
by MIN_RATE when it is None, zero (Python falsiness of 0.0) or below MIN_RATE.
The argument obs gives, for each period, the value get_highest_rate returned
for the 1-hour 5m-candle query of that period. -/
noncomputable def effective_min_rate (obs : ℕ → Option ℝ) : ℝ :=
  match obs 2 with
  | none => MIN_RATE
  | some r => if r = 0 ∨ r < MIN_RATE then MIN_RATE else r

/-- The qualification bound of line 146: min_rate + (period - 2) * MIN_RATE_INCR_PER_DAY. -/
noncomputable def rate_threshold (obs : ℕ → Option ℝ) (period : ℕ) : ℝ :=
  effective_min_rate obs + ((period : ℝ) - 2) * MIN_RATE_INCR_PER_DAY

/-- Lines 144-147 of make_strategy: for each period in POSSIBLE_PERIOD whose
observed rate is truthy (non-None and nonzero) and at least the threshold,
collect the tuple (annual rate, period, rate). -/
noncomputable def possible_rates (obs : ℕ → Option ℝ) : List (ℝ × ℕ × ℝ) :=
  POSSIBLE_PERIOD.filterMap (fun period =>
    match obs period with
    | none => none
    | some rate =>
      if rate ≠ 0 ∧ rate_threshold obs period ≤ rate then
        some (get_annual_rate rate period, period, rate)
      else none)

/-- Strict lexicographic comparison of the (annual rate, period, rate)
tuples, as Python compares them when sorting possible_rates. -/
def rate_lex_lt (a b : ℝ × ℕ × ℝ) : Prop :=
  a.1 < b.1 ∨ (a.1 = b.1 ∧ (a.2.1 < b.2.1 ∨ (a.2.1 = b.2.1 ∧ a.2.2 < b.2.2)))

noncomputable instance (a b : ℝ × ℕ × ℝ) : Decidable (rate_lex_lt a b) := by
  unfold rate_lex_lt
  infer_instance

/-- The lexicographically larger of two tuples. -/
noncomputable def rate_lex_max (a b : ℝ × ℕ × ℝ) : ℝ × ℕ × ℝ :=
  if rate_lex_lt a b then b else a

/-- make_strategy, src/main.py lines 135-168.  Lines 157-158 sort
possible_rates descending (Python list.sort(reverse=True), lexicographic on
the tuples) and take element [0]; since the tuple order is total and each
period occurs at most once, that element is exactly the lexicographic
maximum of the list, computed here by a fold. -/
noncomputable def make_strategy (obs : ℕ → Option ℝ) : FundingStrategy ℝ :=
  match possible_rates obs with
  | [] => ⟨FType.LIMIT, effective_min_rate obs, 2⟩
  | t :: ts =>
    let best := ts.foldl rate_lex_max t
    ⟨FType.LIMIT, best.2.2, best.2.1⟩

/-! ## Theorems -/

/-- C2: for the concrete balance 2500 read before the offer-splitting loop,
with per-offer cap 1000 and minimum offer size 150, the loop submits exactly
three offers with amounts 1000, 1000, 500 in that order, summing to 2500;
the last offer takes the whole remainder because remaining - cap < minimum. -/
theorem split_offer_loop_balance_2500 {α : Type} [LinearOrderedField α] [FloorRing α]
    (s : FundingStrategy α) :
    split_offer_loop s (2500 : α) =
      [Action.submit 1000 s.rate s.period s.f_type,
       Action.submit 1000 s.rate s.period s.f_type,
       Action.submit 500 s.rate s.period s.f_type] ∧
    (1000 : α) + 1000 + 500 = 2500 := by
  refine ⟨?_, by norm_num⟩
  rw [split_offer_loop, dif_pos (by norm_num : (150 : α) ≤ 2500),
    dif_neg (by norm_num : ¬((2500 : α) - 1000 < 150)),
    show (2500 : α) - 1000 = 1500 by norm_num]
  rw [split_offer_loop, dif_pos (by norm_num : (150 : α) ≤ 1500),
    dif_neg (by norm_num : ¬((1500 : α) - 1000 < 150)),
    show (1500 : α) - 1000 = 500 by norm_num]
  rw [split_offer_loop, dif_pos (by norm_num : (150 : α) ≤ 500),
    dif_pos (by norm_num : (500 : α) - 1000 < 150),
    show (500 : α) - 500 = 0 by norm_num]
  rw [split_offer_loop, dif_neg (by norm_num : ¬((150 : α) ≤ 0))]

/-- C5: step 1 of the reconciliation cancels exactly the live offers that
are not of the floating type FRR_DELTA and that the target strategy is not
used by; FRR_DELTA offers and structurally matching offers are never
cancelled in this step. -/
theorem cancel_mismatched_offers_eq_filter {α : Type} [LinearOrderedField α]
    (s : FundingStrategy α) (offers : List (FundingOffer α)) :
    cancel_mismatched_offers s offers =
      (offers.filter (fun o => o.f_type ≠ FType.FRR_DELTA ∧ ¬ s.is_used_by o)).map
        (fun o => Action.cancel o.id) := by
  induction offers with
  | nil => rfl
  | cons o rest ih =>
    by_cases h1 : o.f_type = FType.FRR_DELTA
    · simp [cancel_mismatched_offers, h1, ih]
    · by_cases h2 : s.is_used_by o
      · simp [cancel_mismatched_offers, h1, h2, ih]
      · simp [cancel_mismatched_offers, h1, h2, ih]

/-- C8: with an empty list of active funding credits, show_stats reaches the
division average_rate = total_earn / total_amount with total_amount = 0; there
is no guard and no explicit no-active-credits result, and the unguarded
division (a ZeroDivisionError in Python) is modelled as none. -/
theorem show_stats_empty_credits_unguarded_division :
    show_stats ([] : List (Credit ℚ)) (3 / 10000) = none := by
  decide

section HighestRate

variable {α : Type} [LinearOrderedField α]

lemma foldl_highest_from_some (cs : List (Candle α)) : ∀ a : α,
    ∃ m, cs.foldl highest_rate_step (some a) = some m ∧ a ≤ m ∧
      (m = a ∨ ∃ c ∈ cs, 0 < c.volume ∧ c.high = m) ∧
      ∀ c ∈ cs, 0 < c.volume → c.high ≤ m := by
  induction cs with
  | nil =>
    intro a
    exact ⟨a, rfl, le_refl a, Or.inl rfl, by simp⟩
  | cons c rest ih =>
    intro a
    rw [List.foldl_cons]
    by_cases hv : 0 < c.volume
    · by_cases hh : a < c.high
      · rw [show highest_rate_step (some a) c = some c.high by
          simp [highest_rate_step, hv, hh]]
        obtain ⟨m, hm, ham, horig, hbound⟩ := ih c.high
        refine ⟨m, hm, le_trans (le_of_lt hh) ham, ?_, ?_⟩
        · rcases horig with h | ⟨c', hc', hv', hh'⟩
          · exact Or.inr ⟨c, List.mem_cons_self c rest, hv, h.symm ▸ rfl⟩
          · exact Or.inr ⟨c', List.mem_cons_of_mem c hc', hv', hh'⟩
        · intro c' hc' hv'
          rcases List.mem_cons.mp hc' with h | h
          · exact h ▸ ham
          · exact hbound c' h hv'
      · rw [show highest_rate_step (some a) c = some a by
          simp [highest_rate_step, hv, hh]]
        obtain ⟨m, hm, ham, horig, hbound⟩ := ih a
        refine ⟨m, hm, ham, ?_, ?_⟩
        · rcases horig with h | ⟨c', hc', hv', hh'⟩
          · exact Or.inl h
          · exact Or.inr ⟨c', List.mem_cons_of_mem c hc', hv', hh'⟩
        · intro c' hc' hv'
          rcases List.mem_cons.mp hc' with h | h
          · exact h ▸ le_trans (not_lt.mp hh) ham
          · exact hbound c' h hv'
    · rw [show highest_rate_step (some a) c = some a by
        simp [highest_rate_step, hv]]
      obtain ⟨m, hm, ham, horig, hbound⟩ := ih a
      refine ⟨m, hm, ham, ?_, ?_⟩
      · rcases horig with h | ⟨c', hc', hv', hh'⟩
        · exact Or.inl h
        · exact Or.inr ⟨c', List.mem_cons_of_mem c hc', hv', hh'⟩
      · intro c' hc' hv'
        rcases List.mem_cons.mp hc' with h | h
        · exact absurd hv' (h ▸ hv)
        · exact hbound c' h hv'

lemma get_highest_rate_spec_aux (cs : List (Candle α)) :
    (get_highest_rate cs = none ∧ ∀ c ∈ cs, ¬ 0 < c.volume) ∨
    (∃ m, get_highest_rate cs = some m ∧ (∃ c ∈ cs, 0 < c.volume ∧ c.high = m) ∧
      ∀ c ∈ cs, 0 < c.volume → c.high ≤ m) := by
  unfold get_highest_rate
  induction cs with
  | nil =>
    left
    exact ⟨rfl, by simp⟩
  | cons c rest ih =>
    rw [List.foldl_cons]
    by_cases hv : 0 < c.volume
    · right
      rw [show highest_rate_step none c = some c.high by simp [highest_rate_step, hv]]
      obtain ⟨m, hm, ham, horig, hbound⟩ := foldl_highest_from_some rest c.high
      refine ⟨m, hm, ?_, ?_⟩
      · rcases horig with h | ⟨c', hc', hv', hh'⟩
        · exact ⟨c, List.mem_cons_self c rest, hv, h.symm ▸ rfl⟩
        · exact ⟨c', List.mem_cons_of_mem c hc', hv', hh'⟩
      · intro c' hc' hv'
        rcases List.mem_cons.mp hc' with h | h
        · exact h ▸ ham
        · exact hbound c' h hv'
    · rw [show highest_rate_step none c = none by simp [highest_rate_step, hv]]
      rcases ih with ⟨h1, h2⟩ | ⟨m, hm, ho, hb⟩
      · left
        refine ⟨h1, ?_⟩
        intro c' hc'
        rcases List.mem_cons.mp hc' with h | h
        · exact h ▸ hv
        · exact h2 c' h
      · right
        refine ⟨m, hm, ?_, ?_⟩
        · obtain ⟨c', hc', hv', hh'⟩ := ho
          exact ⟨c', List.mem_cons_of_mem c hc', hv', hh'⟩
        · intro c' hc' hv'
          rcases List.mem_cons.mp hc' with h | h
          · exact absurd hv' (h ▸ hv)
          · exact hb c' h hv'

end HighestRate

/-- C6: get_highest_rate returns the maximum high value among the candles
with strictly positive volume, and returns the distinguished no-signal value
none (never the number 0) when no candle has positive volume. -/
theorem get_highest_rate_spec {α : Type} [LinearOrderedField α] (cs : List (Candle α)) :
    (get_highest_rate cs = none ↔ ∀ c ∈ cs, ¬ 0 < c.volume) ∧
    (∀ r, get_highest_rate cs = some r →
      (∃ c ∈ cs, 0 < c.volume ∧ c.high = r) ∧ ∀ c ∈ cs, 0 < c.volume → c.high ≤ r) := by
  rcases get_highest_rate_spec_aux cs with ⟨h1, h2⟩ | ⟨m, hm, ho, hb⟩
  · refine ⟨⟨fun _ => h2, fun _ => h1⟩, ?_⟩
    intro r hr
    rw [h1] at hr
    cases hr
  · constructor
    · constructor
      · intro h
        rw [hm] at h
        cases h
      · intro hall
        obtain ⟨c, hc, hv, _⟩ := ho
        exact absurd hv (hall c hc)
    · intro r hr
      rw [hm] at hr
      injection hr with h
      subst h
      exact ⟨ho, hb⟩

/-- Witness for C6: on a single zero-volume candle the result is none, and on
a mixed list the result 7 is the high of a positive-volume candle and bounds
the highs of all positive-volume candles (the high 9 sits on a zero-volume
candle and is ignored). -/
theorem get_highest_rate_spec_witness :
    get_highest_rate [(⟨0, 0, 0, 5, 0, 0⟩ : Candle ℚ)] = none ∧
    ((∃ c ∈ [(⟨0, 0, 0, 3, 0, 1⟩ : Candle ℚ), ⟨1, 0, 0, 7, 0, 2⟩,
        ⟨2, 0, 0, 9, 0, 0⟩], 0 < c.volume ∧ c.high = 7) ∧
      ∀ c ∈ [(⟨0, 0, 0, 3, 0, 1⟩ : Candle ℚ), ⟨1, 0, 0, 7, 0, 2⟩,
        ⟨2, 0, 0, 9, 0, 0⟩], 0 < c.volume → c.high ≤ 7) :=
  ⟨(get_highest_rate_spec [⟨0, 0, 0, 5, 0, 0⟩]).1.mpr (by decide),
   (get_highest_rate_spec [⟨0, 0, 0, 3, 0, 1⟩, ⟨1, 0, 0, 7, 0, 2⟩,
     ⟨2, 0, 0, 9, 0, 0⟩]).2 7 (by decide)⟩

section DustCancel

variable {α : Type} [LinearOrderedField α]

lemma foldl_min_from_some (offers : List (FundingOffer α)) : ∀ m0 : FundingOffer α,
    ∃ m, offers.foldl
        (fun acc o =>
          if o.f_type = FType.FRR_DELTA then acc
          else
            match acc with
            | none => some o
            | some m => if o.amount < m.amount then some o else acc)
        (some m0) = some m ∧
      m.amount ≤ m0.amount ∧ (m = m0 ∨ (m ∈ offers ∧ m.f_type ≠ FType.FRR_DELTA)) ∧
      ∀ o ∈ offers, o.f_type ≠ FType.FRR_DELTA → m.amount ≤ o.amount := by
  induction offers with
  | nil =>
    intro m0
    exact ⟨m0, rfl, le_refl _, Or.inl rfl, by simp⟩
  | cons o rest ih =>
    intro m0
    rw [List.foldl_cons]
    by_cases hf : o.f_type = FType.FRR_DELTA
    · simp only [hf, if_pos rfl]
      obtain ⟨m, hm, hle, horig, hbound⟩ := ih m0
      refine ⟨m, hm, hle, ?_, ?_⟩
      · rcases horig with h | ⟨h1, h2⟩
        · exact Or.inl h
        · exact Or.inr ⟨List.mem_cons_of_mem o h1, h2⟩
      · intro o' ho' hf'
        rcases List.mem_cons.mp ho' with h | h
        · exact absurd (h ▸ hf) hf'
        · exact hbound o' h hf'
    · by_cases hlt : o.amount < m0.amount
      · rw [show (if o.f_type = FType.FRR_DELTA then some m0
            else if o.amount < m0.amount then some o else some m0) = some o by
          simp [hf, hlt]]
        obtain ⟨m, hm, hle, horig, hbound⟩ := ih o
        refine ⟨m, hm, le_trans hle (le_of_lt hlt), ?_, ?_⟩
        · rcases horig with h | ⟨h1, h2⟩
          · exact Or.inr ⟨h ▸ List.mem_cons_self o rest, h ▸ hf⟩
          · exact Or.inr ⟨List.mem_cons_of_mem o h1, h2⟩
        · intro o' ho' hf'
          rcases List.mem_cons.mp ho' with h | h
          · exact h ▸ hle
          · exact hbound o' h hf'
      · rw [show (if o.f_type = FType.FRR_DELTA then some m0
            else if o.amount < m0.amount then some o else some m0) = some m0 by
          simp [hf, hlt]]
        obtain ⟨m, hm, hle, horig, hbound⟩ := ih m0
        refine ⟨m, hm, hle, ?_, ?_⟩
        · rcases horig with h | ⟨h1, h2⟩
          · exact Or.inl h
          · exact Or.inr ⟨List.mem_cons_of_mem o h1, h2⟩
        · intro o' ho' hf'
          rcases List.mem_cons.mp ho' with h | h
          · exact h ▸ le_trans hle (not_lt.mp hlt)
          · exact hbound o' h hf'

lemma min_amount_non_frr_spec (offers : List (FundingOffer α)) :
    (min_amount_non_frr offers = none ∧ ∀ o ∈ offers, o.f_type = FType.FRR_DELTA) ∨
    (∃ m, min_amount_non_frr offers = some m ∧ m ∈ offers ∧
      m.f_type ≠ FType.FRR_DELTA ∧
      ∀ o ∈ offers, o.f_type ≠ FType.FRR_DELTA → m.amount ≤ o.amount) := by
  unfold min_amount_non_frr
  induction offers with
  | nil =>
    left
    exact ⟨rfl, by simp⟩
  | cons o rest ih =>
    rw [List.foldl_cons]
    by_cases hf : o.f_type = FType.FRR_DELTA
    · simp only [hf, if_pos rfl]
      rcases ih with ⟨h1, h2⟩ | ⟨m, hm, hmem, hmf, hmin⟩
      · left
        refine ⟨h1, ?_⟩
        intro o' ho'
        rcases List.mem_cons.mp ho' with h | h
        · exact h ▸ hf
        · exact h2 o' h
      · right
        refine ⟨m, hm, List.mem_cons_of_mem o hmem, hmf, ?_⟩
        intro o' ho' hf'
        rcases List.mem_cons.mp ho' with h | h
        · exact absurd (h ▸ hf) hf'
        · exact hmin o' h hf'
    · right
      rw [show (if o.f_type = FType.FRR_DELTA then none else some o) = some o by
        simp [hf]]
      obtain ⟨m, hm, hle, horig, hbound⟩ := foldl_min_from_some rest o
      refine ⟨m, hm, ?_, ?_, ?_⟩
      · rcases horig with h | ⟨h1, _⟩
        · exact h ▸ List.mem_cons_self o rest
        · exact List.mem_cons_of_mem o h1
      · rcases horig with h | ⟨_, h2⟩
        · exact h ▸ hf
        · exact h2
      · intro o' ho' hf'
        rcases List.mem_cons.mp ho' with h | h
        · exact h ▸ hle
        · exact hbound o' h hf'

end DustCancel

/-- C7: when the balance read after the cancellations is strictly between 1
and 150 and at least one non-FRR live offer exists, the dust step issues
exactly one cancellation, and it targets a live non-FRR offer of minimal
amount among the live non-FRR offers. -/
theorem dust_cancel_smallest {α : Type} [LinearOrderedField α] (b : α)
    (offers : List (FundingOffer α)) (o₀ : FundingOffer α)
    (hb1 : 1 < b) (hb2 : b < 150) (ho : o₀ ∈ offers)
    (hf : o₀.f_type ≠ FType.FRR_DELTA) :
    ∃ m, dust_cancel_step b offers = [Action.cancel m.id] ∧ m ∈ offers ∧
      m.f_type ≠ FType.FRR_DELTA ∧
      ∀ o ∈ offers, o.f_type ≠ FType.FRR_DELTA → m.amount ≤ o.amount := by
  rcases min_amount_non_frr_spec offers with ⟨_, hall⟩ | ⟨m, hm, hmem, hmf, hmin⟩
  · exact absurd (hall o₀ ho) hf
  · exact ⟨m, by simp [dust_cancel_step, hb1, hb2, hm], hmem, hmf, hmin⟩

/-- Witness for C7: with balance 100 and live offers of amounts 50 (id 1)
and 30 (id 2), only the offer of amount 30 is cancelled. -/
theorem dust_cancel_smallest_witness :
    (1 : ℚ) < 100 ∧ (100 : ℚ) < 150 ∧
    (∃ m : FundingOffer ℚ,
      dust_cancel_step (100 : ℚ)
          [⟨1, FType.LIMIT, 1, 2, 50⟩, ⟨2, FType.LIMIT, 1, 2, 30⟩] =
        [Action.cancel m.id] ∧
      m ∈ [(⟨1, FType.LIMIT, 1, 2, 50⟩ : FundingOffer ℚ), ⟨2, FType.LIMIT, 1, 2, 30⟩] ∧
      m.f_type ≠ FType.FRR_DELTA ∧
      ∀ o ∈ [(⟨1, FType.LIMIT, 1, 2, 50⟩ : FundingOffer ℚ), ⟨2, FType.LIMIT, 1, 2, 30⟩],
        o.f_type ≠ FType.FRR_DELTA → m.amount ≤ o.amount) ∧
    dust_cancel_step (100 : ℚ)
        [⟨1, FType.LIMIT, 1, 2, 50⟩, ⟨2, FType.LIMIT, 1, 2, 30⟩] =
      [Action.cancel 2] :=
  ⟨by norm_num, by norm_num,
   dust_cancel_smallest 100 [⟨1, FType.LIMIT, 1, 2, 50⟩, ⟨2, FType.LIMIT, 1, 2, 30⟩]
     ⟨1, FType.LIMIT, 1, 2, 50⟩ (by norm_num) (by norm_num) (by decide) (by decide),
   by decide⟩

lemma show_stats_foldl_sum {α : Type} [LinearOrderedField α]
    (credits : List (Credit α)) (frr_rate : α) : ∀ acc : α × α,
    credits.foldl
      (fun (acc : α × α) credit =>
        let rate := if credit.rate = 0 then frr_rate else credit.rate
        (acc.1 + credit.amount, acc.2 + rate * credit.amount))
      acc =
    (acc.1 + (credits.map (fun c => c.amount)).sum,
     acc.2 + (credits.map (fun c =>
       (if c.rate = 0 then frr_rate else c.rate) * c.amount)).sum) := by
  induction credits with
  | nil =>
    intro acc
    simp
  | cons c rest ih =>
    intro acc
    rw [List.foldl_cons, ih]
    simp only [List.map_cons, List.sum_cons, Prod.mk.injEq]
    exact ⟨by ring, by ring⟩

/-- C9: show_stats substitutes the floating reference rate for every credit
whose recorded rate is exactly zero, accumulates total_amount as the sum of
the amounts and total_earn as the sum of rate times amount, and reports
average_rate = total_earn / total_amount (and final_earn after the 0.15 fee
multiplier). -/
theorem show_stats_aggregates {α : Type} [LinearOrderedField α]
    (credits : List (Credit α)) (frr_rate : α)
    (h : (credits.map (fun c => c.amount)).sum ≠ 0) :
    show_stats credits frr_rate =
      some ((credits.map (fun c => c.amount)).sum,
        (credits.map (fun c => (if c.rate = 0 then frr_rate else c.rate) * c.amount)).sum,
        (credits.map (fun c => (if c.rate = 0 then frr_rate else c.rate) * c.amount)).sum /
          (credits.map (fun c => c.amount)).sum,
        (credits.map (fun c =>
          (if c.rate = 0 then frr_rate else c.rate) * c.amount)).sum * (1 - 0.15)) := by
  unfold show_stats
  rw [show_stats_foldl_sum credits frr_rate (0, 0)]
  simp [h]

/-- Witness for C9: the credits (amount 1000, rate 0.0004) and (amount 500,
rate 0) with floating rate 0.0003 yield total_amount 1500, total_earn
1000 * 0.0004 + 500 * 0.0003 = 0.55 = 11/20, average_rate 0.55/1500 and
final_earn 0.55 * 0.85. -/
theorem show_stats_aggregates_witness :
    (([(⟨1000, 4/10000⟩ : Credit ℚ), ⟨500, 0⟩].map (fun c => c.amount)).sum ≠ 0) ∧
    show_stats [(⟨1000, 4/10000⟩ : Credit ℚ), ⟨500, 0⟩] (3/10000) =
      some (1500, 11/20, 11/20 / 1500, 11/20 * (1 - 0.15)) := by
  have h : (([(⟨1000, 4/10000⟩ : Credit ℚ), ⟨500, 0⟩].map (fun c => c.amount)).sum ≠ 0) := by
    norm_num
  refine ⟨h, ?_⟩
  rw [show_stats_aggregates [(⟨1000, 4/10000⟩ : Credit ℚ), ⟨500, 0⟩] (3/10000) h]
  norm_num

/-- C10: get_funding_balance returns the balance_available of the first
wallet of type funding and currency USD, returns none when the wallet list
has no such wallet, and with a none first balance read the whole
reconciliation cycle aborts (Python raises TypeError on the comparison
1 < None), so every balance-dependent step presupposes such a wallet. -/
theorem get_funding_balance_spec {α : Type} [LinearOrderedField α] [FloorRing α] :
    (∀ ws : List (Wallet α),
      (get_funding_balance ws = none ↔
        ∀ w ∈ ws, ¬ (w.type = "funding" ∧ w.currency = "USD"))) ∧
    (∀ (pre post : List (Wallet α)) (w : Wallet α),
      (∀ u ∈ pre, ¬ (u.type = "funding" ∧ u.currency = "USD")) →
      w.type = "funding" → w.currency = "USD" →
      get_funding_balance (pre ++ w :: post) = some w.balance_available) ∧
    (∀ env : TaskEnv α, get_funding_balance env.wallets1 = none →
      execute_funding_task env = none) := by
  refine ⟨?_, ?_, ?_⟩
  · intro ws
    induction ws with
    | nil => simp [get_funding_balance]
    | cons w ws ih =>
      by_cases h : w.type = "funding" ∧ w.currency = "USD"
      · simp [get_funding_balance, h]
      · simp only [get_funding_balance, if_neg h, ih, List.mem_cons]
        constructor
        · intro hall u hu
          rcases hu with rfl | hu
          · exact h
          · exact hall u hu
        · intro hall u hu
          exact hall u (Or.inr hu)
  · intro pre
    induction pre with
    | nil =>
      intro post w _ hw1 hw2
      simp [get_funding_balance, hw1, hw2]
    | cons u pre ih =>
      intro post w hpre hw1 hw2
      rw [List.cons_append, get_funding_balance,
        if_neg (hpre u (List.mem_cons_self u pre))]
      exact ih post w (fun u' hu' => hpre u' (List.mem_cons_of_mem u hu')) hw1 hw2
  · intro env h
    unfold execute_funding_task
    rw [h]

/-- Witness for C10: a wallet list with no funding USD wallet gives none, the
first funding USD wallet (balance_available 42) is returned even when a later
funding USD wallet exists, and a cycle whose first wallet read has no funding
USD wallet aborts as none. -/
theorem get_funding_balance_spec_witness :
    get_funding_balance
        ([⟨"exchange", "USD", 5, 5⟩, ⟨"funding", "BTC", 7, 7⟩] : List (Wallet ℚ)) = none ∧
    get_funding_balance
        (([⟨"exchange", "USD", 5, 5⟩] : List (Wallet ℚ)) ++
          (⟨"funding", "USD", 42, 50⟩ : Wallet ℚ) :: [⟨"funding", "USD", 9, 9⟩]) = some 42 ∧
    execute_funding_task
        (⟨⟨FType.LIMIT, 1, 2⟩, [], [⟨"exchange", "USD", 5, 5⟩], [], [], [], []⟩ :
          TaskEnv ℚ) = none :=
  ⟨(get_funding_balance_spec.1 _).mpr (by decide),
   get_funding_balance_spec.2.1 [⟨"exchange", "USD", 5, 5⟩] [⟨"funding", "USD", 9, 9⟩]
     ⟨"funding", "USD", 42, 50⟩ (by decide) (by decide) (by decide),
   get_funding_balance_spec.2.2 _ (by decide)⟩

section OfferBounds

variable {α : Type} [LinearOrderedField α]

lemma mem_cancel_mismatched (s : FundingStrategy α) :
    ∀ offers : List (FundingOffer α), ∀ a ∈ cancel_mismatched_offers s offers,
      ∃ i, a = Action.cancel i := by
  intro offers
  induction offers with
  | nil =>
    intro a ha
    cases ha
  | cons o rest ih =>
    intro a ha
    by_cases h1 : o.f_type = FType.FRR_DELTA
    · rw [cancel_mismatched_offers, if_pos h1] at ha
      exact ih a ha
    · by_cases h2 : ¬ s.is_used_by o
      · rw [cancel_mismatched_offers, if_neg h1, if_pos h2] at ha
        rcases List.mem_cons.mp ha with rfl | ha
        · exact ⟨o.id, rfl⟩
        · exact ih a ha
      · rw [cancel_mismatched_offers, if_neg h1, if_neg h2] at ha
        exact ih a ha

lemma mem_dust_cancel_step (b : α) (offers : List (FundingOffer α)) :
    ∀ a ∈ dust_cancel_step b offers, ∃ i, a = Action.cancel i := by
  intro a ha
  unfold dust_cancel_step at ha
  by_cases h : 1 < b ∧ b < 150
  · rw [if_pos h] at ha
    cases hmin : min_amount_non_frr offers with
    | none =>
      rw [hmin] at ha
      cases ha
    | some m =>
      rw [hmin] at ha
      rcases List.mem_cons.mp ha with rfl | ha
      · exact ⟨m.id, rfl⟩
      · cases ha
  · rw [if_neg h] at ha
    cases ha

lemma mem_frr_offer_step (b : α) (offers : List (FundingOffer α)) :
    ∀ a ∈ frr_offer_step b offers,
      ∃ amt, a = Action.submit amt 0 30 FType.FRR_DELTA ∧ 150 ≤ amt ∧ amt ≤ 1000 := by
  intro a ha
  unfold frr_offer_step at ha
  by_cases h : 150 ≤ b ∧ ¬ has_frr_offer offers
  · rw [if_pos h] at ha
    rcases List.mem_cons.mp ha with rfl | ha
    · refine ⟨if 1000 < b then 1000 else b, rfl, ?_, ?_⟩
      · by_cases hb : 1000 < b
        · rw [if_pos hb]
          norm_num
        · rw [if_neg hb]
          exact h.1
      · by_cases hb : 1000 < b
        · rw [if_pos hb]
        · rw [if_neg hb]
          exact not_lt.mp hb
    · cases ha
  · rw [if_neg h] at ha
    cases ha

lemma mem_split_offer_loop [FloorRing α] (s : FundingStrategy α) (b : α) :
    ∀ a ∈ split_offer_loop s b,
      ∃ amt, a = Action.submit amt s.rate s.period s.f_type ∧
        150 ≤ amt ∧ amt < 1150 := by
  induction b using split_offer_loop.induct (s := s) with
  | case1 b h h2 ih =>
    rw [split_offer_loop, dif_pos h, dif_pos h2]
    intro a ha
    rcases List.mem_cons.mp ha with rfl | ha
    · exact ⟨b, rfl, h, by linarith⟩
    · exact ih a ha
  | case2 b h h2 ih =>
    rw [split_offer_loop, dif_pos h, dif_neg h2]
    intro a ha
    rcases List.mem_cons.mp ha with rfl | ha
    · exact ⟨1000, rfl, by norm_num, by norm_num⟩
    · exact ih a ha
  | case3 b h =>
    rw [split_offer_loop, dif_neg h]
    intro a ha
    cases ha

end OfferBounds

/-- C1 (amended): every offer submitted during a reconciliation cycle has an
amount of at least the minimum tradable threshold 150 and strictly below
MAX_OFFER_AMOUNT + 150 = 1150.  The per-offer cap 1000 itself is exceeded by
the final remainder-absorbing offer of the splitting loop whenever the
remaining balance lies strictly between 1000 and 1150 (see the
counterexample), so the provable cap is 1150, not 1000. -/
theorem execute_funding_task_offer_amount_bounds {α : Type} [LinearOrderedField α]
    [FloorRing α] (env : TaskEnv α) (acts : List (Action α))
    (h : execute_funding_task env = some acts) :
    ∀ amt r p ft, Action.submit amt r p ft ∈ acts → 150 ≤ amt ∧ amt < 1150 := by
  intro amt r p ft hmem
  unfold execute_funding_task at h
  cases hb1 : get_funding_balance env.wallets1 with
  | none =>
    rw [hb1] at h
    cases h
  | some b1 =>
    rw [hb1] at h
    cases hb2 : get_funding_balance env.wallets2 with
    | none =>
      rw [hb2] at h
      cases h
    | some b2 =>
      rw [hb2] at h
      cases hb3 : get_funding_balance env.wallets3 with
      | none =>
        rw [hb3] at h
        cases h
      | some b3 =>
        rw [hb3] at h
        injection h with h
        subst h
        rcases List.mem_append.mp hmem with hc | hrest
        · obtain ⟨i, hi⟩ := mem_cancel_mismatched env.strategy env.offers1 _ hc
          cases hi
        · rcases List.mem_append.mp hrest with hd | hfs
          · obtain ⟨i, hi⟩ := mem_dust_cancel_step b1 env.offers2 _ hd
            cases hi
          · rcases List.mem_append.mp hfs with hf | hs
            · obtain ⟨amt', ha, h1, h2⟩ := mem_frr_offer_step b2 env.offers3 _ hf
              injection ha with ha _ _ _
              subst ha
              exact ⟨h1, by linarith⟩
            · obtain ⟨amt', ha, h1, h2⟩ := mem_split_offer_loop env.strategy b3 _ hs
              injection ha with ha _ _ _
              subst ha
              exact ⟨h1, h2⟩

/-- Counterexample for C1: with every wallet read giving available balance
1100 and an FRR offer already live (so the FRR step is skipped), the
splitting loop issues a single offer of amount 1100, which exceeds the
per-offer cap MAX_OFFER_AMOUNT = 1000: the claim that no single submitted
offer ever exceeds the cap is false. -/
theorem reconcile_offer_cap_counterexample :
    execute_funding_task
        (⟨⟨FType.LIMIT, 1, 2⟩, [], [⟨"funding", "USD", 1100, 1100⟩],
          [], [⟨"funding", "USD", 1100, 1100⟩],
          [⟨7, FType.FRR_DELTA, 0, 30, 1000⟩], [⟨"funding", "USD", 1100, 1100⟩]⟩ :
          TaskEnv ℚ) =
      some [Action.submit 1100 1 2 FType.LIMIT] ∧ (1000 : ℚ) < 1100 := by
  have hsplit : split_offer_loop (⟨FType.LIMIT, 1, 2⟩ : FundingStrategy ℚ) (1100 : ℚ) =
      [Action.submit 1100 1 2 FType.LIMIT] := by
    rw [split_offer_loop, dif_pos (by norm_num : (150 : ℚ) ≤ 1100),
      dif_pos (by norm_num : (1100 : ℚ) - 1000 < 150),
      show (1100 : ℚ) - 1100 = 0 by norm_num,
      split_offer_loop, dif_neg (by norm_num : ¬ ((150 : ℚ) ≤ 0))]
  refine ⟨?_, by norm_num⟩
  simp [execute_funding_task, get_funding_balance, cancel_mismatched_offers,
    dust_cancel_step, frr_offer_step, has_frr_offer, hsplit]
  norm_num

/-- Witness for C1 (amended): a cycle with balance 200 everywhere and a live
FRR offer submits exactly one offer, of amount 200, and that amount obeys the
bounds 150 ≤ 200 < 1150. -/
theorem execute_funding_task_offer_amount_bounds_witness :
    execute_funding_task
        (⟨⟨FType.LIMIT, 1, 2⟩, [], [⟨"funding", "USD", 200, 200⟩],
          [], [⟨"funding", "USD", 200, 200⟩],
          [⟨7, FType.FRR_DELTA, 0, 30, 1000⟩], [⟨"funding", "USD", 200, 200⟩]⟩ :
          TaskEnv ℚ) =
      some [Action.submit 200 1 2 FType.LIMIT] ∧ (150 : ℚ) ≤ 200 ∧ (200 : ℚ) < 1150 := by
  have hsplit : split_offer_loop (⟨FType.LIMIT, 1, 2⟩ : FundingStrategy ℚ) (200 : ℚ) =
      [Action.submit 200 1 2 FType.LIMIT] := by
    rw [split_offer_loop, dif_pos (by norm_num : (150 : ℚ) ≤ 200),
      dif_pos (by norm_num : (200 : ℚ) - 1000 < 150),
      show (200 : ℚ) - 200 = 0 by norm_num,
      split_offer_loop, dif_neg (by norm_num : ¬ ((150 : ℚ) ≤ 0))]
  have heval : execute_funding_task
      (⟨⟨FType.LIMIT, 1, 2⟩, [], [⟨"funding", "USD", 200, 200⟩],
        [], [⟨"funding", "USD", 200, 200⟩],
        [⟨7, FType.FRR_DELTA, 0, 30, 1000⟩], [⟨"funding", "USD", 200, 200⟩]⟩ :
        TaskEnv ℚ) = some [Action.submit 200 1 2 FType.LIMIT] := by
    simp [execute_funding_task, get_funding_balance, cancel_mismatched_offers,
      dust_cancel_step, frr_offer_step, has_frr_offer, hsplit]
    norm_num
  exact ⟨heval,
    execute_funding_task_offer_amount_bounds _ _ heval 200 1 2 FType.LIMIT
      (by simp)⟩

/-! ### Order facts for the (annual rate, period, rate) tuples -/

lemma rate_lex_lt_irrefl (a : ℝ × ℕ × ℝ) : ¬ rate_lex_lt a a := by
  simp [rate_lex_lt]

lemma rate_lex_lt_trans {a b c : ℝ × ℕ × ℝ}
    (h1 : rate_lex_lt a b) (h2 : rate_lex_lt b c) : rate_lex_lt a c := by
  unfold rate_lex_lt at *
  rcases h1 with h1 | ⟨h1e, h1r⟩
  · rcases h2 with h2 | ⟨h2e, _⟩
    · exact Or.inl (lt_trans h1 h2)
    · exact Or.inl (lt_of_lt_of_eq h1 h2e)
  · rcases h2 with h2 | ⟨h2e, h2r⟩
    · exact Or.inl (lt_of_eq_of_lt h1e h2)
    · refine Or.inr ⟨h1e.trans h2e, ?_⟩
      rcases h1r with h1p | ⟨h1pe, h1rr⟩
      · rcases h2r with h2p | ⟨h2pe, _⟩
        · exact Or.inl (lt_trans h1p h2p)
        · exact Or.inl (lt_of_lt_of_eq h1p h2pe)
      · rcases h2r with h2p | ⟨h2pe, h2rr⟩
        · exact Or.inl (lt_of_eq_of_lt h1pe h2p)
        · exact Or.inr ⟨h1pe.trans h2pe, lt_trans h1rr h2rr⟩

lemma rate_lex_lt_total (a b : ℝ × ℕ × ℝ) (h : a ≠ b) :
    rate_lex_lt a b ∨ rate_lex_lt b a := by
  unfold rate_lex_lt
  rcases lt_trichotomy a.1 b.1 with h1 | h1 | h1
  · exact Or.inl (Or.inl h1)
  · rcases lt_trichotomy a.2.1 b.2.1 with h2 | h2 | h2
    · exact Or.inl (Or.inr ⟨h1, Or.inl h2⟩)
    · rcases lt_trichotomy a.2.2 b.2.2 with h3 | h3 | h3
      · exact Or.inl (Or.inr ⟨h1, Or.inr ⟨h2, h3⟩⟩)
      · exact absurd (Prod.ext h1 (Prod.ext h2 h3)) h
      · exact Or.inr (Or.inr ⟨h1.symm, Or.inr ⟨h2.symm, h3⟩⟩)
    · exact Or.inr (Or.inr ⟨h1.symm, Or.inl h2⟩)
  · exact Or.inr (Or.inl h1)

lemma rate_lex_not_lt_trans {a b c : ℝ × ℕ × ℝ}
    (h1 : ¬ rate_lex_lt a b) (h2 : ¬ rate_lex_lt b c) : ¬ rate_lex_lt a c := by
  intro hac
  by_cases hab : a = b
  · exact h2 (hab ▸ hac)
  · rcases rate_lex_lt_total a b hab with h | h
    · exact h1 h
    · exact h2 (rate_lex_lt_trans h hac)

lemma rate_lex_max_not_lt_left (a b : ℝ × ℕ × ℝ) : ¬ rate_lex_lt (rate_lex_max a b) a := by
  unfold rate_lex_max
  by_cases h : rate_lex_lt a b
  · rw [if_pos h]
    intro hba
    exact rate_lex_lt_irrefl a (rate_lex_lt_trans h hba)
  · rw [if_neg h]
    exact rate_lex_lt_irrefl a

lemma rate_lex_max_not_lt_right (a b : ℝ × ℕ × ℝ) : ¬ rate_lex_lt (rate_lex_max a b) b := by
  unfold rate_lex_max
  by_cases h : rate_lex_lt a b
  · rw [if_pos h]
    exact rate_lex_lt_irrefl b
  · rw [if_neg h]
    exact h

lemma rate_lex_max_eq_or (a b : ℝ × ℕ × ℝ) :
    rate_lex_max a b = a ∨ rate_lex_max a b = b := by
  unfold rate_lex_max
  by_cases h : rate_lex_lt a b
  · rw [if_pos h]
    exact Or.inr rfl
  · rw [if_neg h]
    exact Or.inl rfl

lemma foldl_rate_lex_max_mem (l : List (ℝ × ℕ × ℝ)) : ∀ a,
    l.foldl rate_lex_max a = a ∨ l.foldl rate_lex_max a ∈ l := by
  induction l with
  | nil =>
    intro a
    exact Or.inl rfl
  | cons y ys ih =>
    intro a
    rw [List.foldl_cons]
    rcases ih (rate_lex_max a y) with h | h
    · rw [h]
      rcases rate_lex_max_eq_or a y with h2 | h2
      · exact Or.inl h2
      · exact Or.inr (by rw [h2]; exact List.mem_cons_self y ys)
    · exact Or.inr (List.mem_cons_of_mem y h)

lemma foldl_rate_lex_max_not_lt (l : List (ℝ × ℕ × ℝ)) : ∀ a x, (x = a ∨ x ∈ l) →
    ¬ rate_lex_lt (l.foldl rate_lex_max a) x := by
  induction l with
  | nil =>
    intro a x hx
    rcases hx with rfl | hx
    · exact rate_lex_lt_irrefl x
    · cases hx
  | cons y ys ih =>
    intro a x hx
    rw [List.foldl_cons]
    have hM : ¬ rate_lex_lt (ys.foldl rate_lex_max (rate_lex_max a y)) (rate_lex_max a y) :=
      ih (rate_lex_max a y) (rate_lex_max a y) (Or.inl rfl)
    rcases hx with rfl | hx
    · exact rate_lex_not_lt_trans hM (rate_lex_max_not_lt_left x y)
    · rcases List.mem_cons.mp hx with rfl | hx
      · exact rate_lex_not_lt_trans hM (rate_lex_max_not_lt_right a x)
      · exact ih (rate_lex_max a y) x (Or.inr hx)

/-! ### Qualification facts for make_strategy -/

lemma effective_min_rate_ge (obs : ℕ → Option ℝ) : MIN_RATE ≤ effective_min_rate obs := by
  rcases ho : obs 2 with _ | r
  · simp [effective_min_rate, ho]
  · by_cases h : r = 0 ∨ r < MIN_RATE
    · simp [effective_min_rate, ho, h]
    · simp only [effective_min_rate, ho]
      rw [if_neg h]
      push_neg at h
      exact h.2

lemma mem_POSSIBLE_PERIOD_two_le {p : ℕ} (hp : p ∈ POSSIBLE_PERIOD) : 2 ≤ p := by
  simp [POSSIBLE_PERIOD] at hp
  omega

lemma rate_threshold_pos (obs : ℕ → Option ℝ) {p : ℕ} (hp : p ∈ POSSIBLE_PERIOD) :
    0 < rate_threshold obs p := by
  unfold rate_threshold
  have h0 : (0 : ℝ) < MIN_RATE := by norm_num [MIN_RATE]
  have h1 := effective_min_rate_ge obs
  have h2 : (0 : ℝ) ≤ ((p : ℝ) - 2) * MIN_RATE_INCR_PER_DAY := by
    apply mul_nonneg
    · have hp2 : (2 : ℝ) ≤ (p : ℝ) := by exact_mod_cast mem_POSSIBLE_PERIOD_two_le hp
      linarith
    · norm_num [MIN_RATE_INCR_PER_DAY]
  linarith

lemma mem_possible_rates {obs : ℕ → Option ℝ} {t : ℝ × ℕ × ℝ} :
    t ∈ possible_rates obs ↔ ∃ p r, p ∈ POSSIBLE_PERIOD ∧ obs p = some r ∧ r ≠ 0 ∧
      rate_threshold obs p ≤ r ∧ t = (get_annual_rate r p, p, r) := by
  unfold possible_rates
  rw [List.mem_filterMap]
  constructor
  · rintro ⟨p, hp, hf⟩
    cases ho : obs p with
    | none =>
      simp only [ho] at hf
      exact Option.noConfusion hf
    | some r =>
      simp only [ho] at hf
      by_cases hc : r ≠ 0 ∧ rate_threshold obs p ≤ r
      · rw [if_pos hc] at hf
        injection hf with hf
        exact ⟨p, r, hp, ho, hc.1, hc.2, hf.symm⟩
      · rw [if_neg hc] at hf
        cases hf
  · rintro ⟨p, r, hp, ho, h1, h2, rfl⟩
    refine ⟨p, hp, ?_⟩
    simp only [ho]
    rw [if_pos ⟨h1, h2⟩]

lemma make_strategy_best (obs : ℕ → Option ℝ) (t0 : ℝ × ℕ × ℝ)
    (h : t0 ∈ possible_rates obs) :
    ∃ b, b ∈ possible_rates obs ∧ make_strategy obs = ⟨FType.LIMIT, b.2.2, b.2.1⟩ ∧
      ∀ u ∈ possible_rates obs, ¬ rate_lex_lt b u := by
  cases hl : possible_rates obs with
  | nil =>
    rw [hl] at h
    cases h
  | cons t ts =>
    have hms : make_strategy obs = ⟨FType.LIMIT, (ts.foldl rate_lex_max t).2.2,
        (ts.foldl rate_lex_max t).2.1⟩ := by
      unfold make_strategy
      rw [hl]
    refine ⟨ts.foldl rate_lex_max t, ?_, hms, ?_⟩
    · rcases foldl_rate_lex_max_mem ts t with h2 | h2
      · rw [h2]
        exact List.mem_cons_self t ts
      · exact List.mem_cons_of_mem t h2
    · intro u hu
      rcases List.mem_cons.mp hu with h3 | h3
      · rw [h3]
        exact foldl_rate_lex_max_not_lt ts t t (Or.inl rfl)
      · exact foldl_rate_lex_max_not_lt ts t u (Or.inr h3)

/-- C3: under the annualized-yield policy, whenever at least one period of
POSSIBLE_PERIOD qualifies (its observed rate is non-None and at least the
threshold floor + (period - 2) * increment), make_strategy returns the rate
and period of a qualifying period whose annualized yield is at least the
annualized yield of every qualifying period. -/
theorem make_strategy_maximizes_annual_yield (obs : ℕ → Option ℝ) (p₀ : ℕ) (r₀ : ℝ)
    (hp₀ : p₀ ∈ POSSIBLE_PERIOD) (ho₀ : obs p₀ = some r₀)
    (ht₀ : rate_threshold obs p₀ ≤ r₀) :
    ∃ p r, p ∈ POSSIBLE_PERIOD ∧ obs p = some r ∧ rate_threshold obs p ≤ r ∧
      make_strategy obs = ⟨FType.LIMIT, r, p⟩ ∧
      ∀ q s, q ∈ POSSIBLE_PERIOD → obs q = some s → rate_threshold obs q ≤ s →
        get_annual_rate s q ≤ get_annual_rate r p := by
  have hr₀ : r₀ ≠ 0 := by
    have := rate_threshold_pos obs hp₀
    intro hz
    rw [hz] at ht₀
    linarith
  have ht0 : (get_annual_rate r₀ p₀, p₀, r₀) ∈ possible_rates obs :=
    mem_possible_rates.mpr ⟨p₀, r₀, hp₀, ho₀, hr₀, ht₀, rfl⟩
  obtain ⟨b, hbmem, hbs, hbmax⟩ := make_strategy_best obs _ ht0
  obtain ⟨p, r, hp, ho, hr, ht, hbt⟩ := mem_possible_rates.mp hbmem
  subst hbt
  refine ⟨p, r, hp, ho, ht, hbs, ?_⟩
  intro q s hq hos hts
  have hs0 : s ≠ 0 := by
    have := rate_threshold_pos obs hq
    intro hz
    rw [hz] at hts
    linarith
  have hu : (get_annual_rate s q, q, s) ∈ possible_rates obs :=
    mem_possible_rates.mpr ⟨q, s, hq, hos, hs0, hts, rfl⟩
  have hnl := hbmax _ hu
  unfold rate_lex_lt at hnl
  push_neg at hnl
  exact hnl.1

/-- Witness for C3: with period 2 observed at rate 1/2 and no other signal,
period 2 qualifies and make_strategy selects a qualifying period of maximal
annualized yield. -/
theorem make_strategy_maximizes_annual_yield_witness :
    (2 ∈ POSSIBLE_PERIOD ∧
      (fun p : ℕ => if p = 2 then some ((1 : ℝ)/2) else none) 2 = some (1/2) ∧
      rate_threshold (fun p : ℕ => if p = 2 then some ((1 : ℝ)/2) else none) 2 ≤ 1/2) ∧
    (∃ p r, p ∈ POSSIBLE_PERIOD ∧
      (fun p : ℕ => if p = 2 then some ((1 : ℝ)/2) else none) p = some r ∧
      rate_threshold (fun p : ℕ => if p = 2 then some ((1 : ℝ)/2) else none) p ≤ r ∧
      make_strategy (fun p : ℕ => if p = 2 then some ((1 : ℝ)/2) else none) =
        ⟨FType.LIMIT, r, p⟩ ∧
      ∀ q s, q ∈ POSSIBLE_PERIOD →
        (fun p : ℕ => if p = 2 then some ((1 : ℝ)/2) else none) q = some s →
        rate_threshold (fun p : ℕ => if p = 2 then some ((1 : ℝ)/2) else none) q ≤ s →
        get_annual_rate s q ≤ get_annual_rate r p) := by
  have h1 : 2 ∈ POSSIBLE_PERIOD := by decide
  have h2 : (fun p : ℕ => if p = 2 then some ((1 : ℝ)/2) else none) 2 = some (1/2) := by
    norm_num
  have h3 : rate_threshold (fun p : ℕ => if p = 2 then some ((1 : ℝ)/2) else none) 2 ≤ 1/2 := by
    unfold rate_threshold effective_min_rate
    norm_num [MIN_RATE]
  exact ⟨⟨h1, h2, h3⟩, make_strategy_maximizes_annual_yield _ 2 (1/2) h1 h2 h3⟩

/-- C4 (amended): when the annualized yields of qualifying periods tie at the
maximum, make_strategy selects among the tied tuples the one with the largest
period, which is the last (not the first) in the iteration order of
POSSIBLE_PERIOD, the period list being strictly increasing.  Python
list.sort(reverse=True) orders tuples with equal first component by
descending period, so element [0] carries the largest tied period. -/
theorem make_strategy_tie_prefers_larger_period (obs : ℕ → Option ℝ)
    (t0 : ℝ × ℕ × ℝ) (h : t0 ∈ possible_rates obs) :
    List.Sorted (· < ·) POSSIBLE_PERIOD ∧
    ∃ b, b ∈ possible_rates obs ∧ make_strategy obs = ⟨FType.LIMIT, b.2.2, b.2.1⟩ ∧
      ∀ u ∈ possible_rates obs, u.1 < b.1 ∨ (u.1 = b.1 ∧ u.2.1 ≤ b.2.1) := by
  refine ⟨by decide, ?_⟩
  obtain ⟨b, hm, hs, hmax⟩ := make_strategy_best obs t0 h
  refine ⟨b, hm, hs, ?_⟩
  intro u hu
  have hnl := hmax u hu
  unfold rate_lex_lt at hnl
  push_neg at hnl
  rcases (hnl.1).lt_or_eq with h1 | h1
  · exact Or.inl h1
  · exact Or.inr ⟨h1, ((hnl.2) h1.symm).1⟩

/-- The observation set exhibiting an exact annualized-yield tie: period 2 at
rate 1/2 and period 4 at rate 3/4, no other signal. -/
noncomputable def obs_tie : ℕ → Option ℝ := fun p =>
  if p = 2 then some (1/2) else if p = 4 then some (3/4) else none

lemma annual_rate_tie : get_annual_rate (1/2) 2 = get_annual_rate (3/4) 4 := by
  unfold get_annual_rate
  have h2 : (1 : ℝ) + 1/2 * (2 : ℕ) = 2 := by
    push_cast
    norm_num
  have h4 : (1 : ℝ) + 3/4 * (4 : ℕ) = 4 := by
    push_cast
    norm_num
  rw [h2, h4]
  have hpow : (4 : ℝ) ^ ((365 : ℝ) / (4 : ℕ)) = (2 : ℝ) ^ ((365 : ℝ) / (2 : ℕ)) := by
    have h42 : (4 : ℝ) = (2 : ℝ) ^ (2 : ℝ) := by
      rw [Real.rpow_two]
      norm_num
    rw [h42, ← Real.rpow_mul (by norm_num : (0 : ℝ) ≤ 2)]
    push_cast
    norm_num
  rw [hpow]

lemma effective_min_rate_obs_tie : effective_min_rate obs_tie = 1/2 := by
  have ho : obs_tie 2 = some (1/2) := by norm_num [obs_tie]
  simp only [effective_min_rate, ho]
  rw [if_neg]
  push_neg
  constructor
  · norm_num
  · norm_num [MIN_RATE]

lemma possible_rates_obs_tie :
    possible_rates obs_tie =
      [(get_annual_rate (1/2) 2, 2, 1/2), (get_annual_rate (3/4) 4, 4, 3/4)] := by
  have h2 : rate_threshold obs_tie 2 ≤ 1/2 := by
    unfold rate_threshold
    rw [effective_min_rate_obs_tie]
    norm_num [MIN_RATE_INCR_PER_DAY]
  have h4 : rate_threshold obs_tie 4 ≤ 3/4 := by
    unfold rate_threshold
    rw [effective_min_rate_obs_tie]
    norm_num [MIN_RATE_INCR_PER_DAY]
  norm_num [possible_rates, POSSIBLE_PERIOD, obs_tie, h2, h4, List.filterMap_cons,
    List.filterMap_nil]

/-- Counterexample for C4: periods 2 and 4 both qualify, their annualized
yields are exactly equal (2 ^ 182.5 - 1 on both sides), 2 precedes 4 in the
iteration order of POSSIBLE_PERIOD, yet make_strategy selects period 4, not
the first tied period 2: the claimed first-in-iteration-order tie-break is
false. -/
theorem make_strategy_tie_counterexample :
    obs_tie 2 = some (1/2) ∧ obs_tie 4 = some (3/4) ∧
    rate_threshold obs_tie 2 ≤ 1/2 ∧ rate_threshold obs_tie 4 ≤ 3/4 ∧
    get_annual_rate (1/2) 2 = get_annual_rate (3/4) 4 ∧
    List.indexOf 2 POSSIBLE_PERIOD < List.indexOf 4 POSSIBLE_PERIOD ∧
    make_strategy obs_tie = ⟨FType.LIMIT, 3/4, 4⟩ ∧ (4 : ℕ) ≠ 2 := by
  have h2 : rate_threshold obs_tie 2 ≤ 1/2 := by
    unfold rate_threshold
    rw [effective_min_rate_obs_tie]
    norm_num [MIN_RATE_INCR_PER_DAY]
  have h4 : rate_threshold obs_tie 4 ≤ 3/4 := by
    unfold rate_threshold
    rw [effective_min_rate_obs_tie]
    norm_num [MIN_RATE_INCR_PER_DAY]
  have hlt : rate_lex_lt (get_annual_rate (1/2) 2, 2, (1 : ℝ)/2)
      (get_annual_rate (3/4) 4, 4, (3 : ℝ)/4) := by
    unfold rate_lex_lt
    exact Or.inr ⟨annual_rate_tie, Or.inl (by norm_num)⟩
  have hms : make_strategy obs_tie = ⟨FType.LIMIT, 3/4, 4⟩ := by
    unfold make_strategy
    rw [possible_rates_obs_tie]
    simp only [List.foldl_cons, List.foldl_nil]
    unfold rate_lex_max
    rw [if_pos hlt]
  refine ⟨by norm_num [obs_tie], by norm_num [obs_tie], h2, h4, annual_rate_tie,
    by decide, hms, by norm_num⟩

/-- Witness for C4 (amended): at the tied observation set, period 2 qualifies,
and the selected tuple dominates every qualifying tuple, with ties resolved
towards the larger period. -/
theorem make_strategy_tie_prefers_larger_period_witness :
    ((get_annual_rate (1/2) 2, 2, (1 : ℝ)/2) ∈ possible_rates obs_tie) ∧
    (List.Sorted (· < ·) POSSIBLE_PERIOD ∧
      ∃ b, b ∈ possible_rates obs_tie ∧
        make_strategy obs_tie = ⟨FType.LIMIT, b.2.2, b.2.1⟩ ∧
        ∀ u ∈ possible_rates obs_tie, u.1 < b.1 ∨ (u.1 = b.1 ∧ u.2.1 ≤ b.2.1)) := by
  have hmem : (get_annual_rate (1/2) 2, 2, (1 : ℝ)/2) ∈ possible_rates obs_tie := by
    rw [possible_rates_obs_tie]
    exact List.mem_cons_self _ _
  exact ⟨hmem, make_strategy_tie_prefers_larger_period obs_tie _ hmem⟩

end BitfinexBot
